import Mathlib

/-!
Shallow embedding of the query-server core (crate query-rs) and proofs about
its SQL-to-intermediate translation, execution pipeline and fetcher dispatch.

Source files embedded: src/convert.rs, src/lib.rs, src/fetcher.rs.
Rust machine integers are modelled as Nat / Int (usize::MAX is 2^64 - 1,
i64 bounds are ±2^63); strings are Lean strings (the sources dispatch on
ASCII scheme prefixes, where char count and byte count agree).  The f64
payload of a numeric literal is represented by the raw numeric text it was
parsed from, since no claim compares parsed float values.  Display
renderings that only feed error-message payloads are modelled by
approximate render functions; no theorem depends on their exact text.
-/

namespace QueryRs

deriving instance DecidableEq for Except

/-- Models OrderType from convert.rs. -/
inductive OrderType
  | Asc
  | Desc
deriving DecidableEq, BEq

/-- Models polars Operator, restricted to the variants the translation can
produce; matches the closed operator set of convert.rs. -/
inductive Operator
  | Plus
  | Minus
  | Multiply
  | Divide
  | Modulus
  | Gt
  | Lt
  | GtEq
  | LtEq
  | Eq
  | NotEq
  | And
  | Or
deriving DecidableEq

/-- Models sqlparser BinaryOperator: the thirteen variants convert.rs maps,
plus a representative sample of the remaining variants which all fall into
the catch-all error arm of the source match. -/
inductive SqlBinaryOperator
  | Plus
  | Minus
  | Multiply
  | Divide
  | Modulo
  | Gt
  | Lt
  | GtEq
  | LtEq
  | Eq
  | NotEq
  | And
  | Or
  | Spaceship
  | Xor
  | BitwiseOr
  | BitwiseAnd
  | StringConcat
deriving DecidableEq

/-- Models the Display rendering of sqlparser BinaryOperator (used only for
error-message payloads). -/
def sqlBinOpToString : SqlBinaryOperator → String
  | .Plus => "+"
  | .Minus => "-"
  | .Multiply => "*"
  | .Divide => "/"
  | .Modulo => "%"
  | .Gt => ">"
  | .Lt => "<"
  | .GtEq => ">="
  | .LtEq => "<="
  | .Eq => "="
  | .NotEq => "<>"
  | .And => "AND"
  | .Or => "OR"
  | .Spaceship => "<=>"
  | .Xor => "XOR"
  | .BitwiseOr => "|"
  | .BitwiseAnd => "&"
  | .StringConcat => "||"

/-- Models sqlparser Ident: an identifier value with an optional quote
style.  Ident::new sets quote_style to None. -/
structure Ident where
  value : String
  quote_style : Option Char
deriving DecidableEq

/-- Models the Display rendering of Ident (quote style wrapped around the
value when present). -/
def identToString (i : Ident) : String :=
  match i.quote_style with
  | some q => String.mk (q :: (i.value.toList ++ [q]))
  | none => i.value

/-- Models sqlparser Value: the Number variant the code inspects (raw text
and a long flag), and a representative variant for everything else, which
the source sends to its catch-all error arm. -/
inductive SqlValue
  | Number (v : String) (long : Bool)
  | Other (dbg : String)
deriving DecidableEq

/-- Models polars LiteralValue as produced by convert.rs, which only ever
builds LiteralValue::Dyn(DynLiteralValue::Float(raw.parse().unwrap_or_default())).
The f64 is represented by the raw text it was parsed from. -/
inductive LiteralValue
  | DynFloat (raw : String)
deriving DecidableEq

/-- Models the subset of sqlparser Expr that convert.rs matches on:
BinaryOp, Wildcard, Identifier and Value arms, plus a representative
variant for the catch-all error arm.  The span wrapper ValueWithSpan is
dropped (the source immediately projects .value out of it). -/
inductive SqlExpr
  | BinaryOp (left : SqlExpr) (op : SqlBinaryOperator) (right : SqlExpr)
  | Wildcard
  | Identifier (ident : Ident)
  | Value (value : SqlValue)
  | Other (dbg : String)
deriving DecidableEq

/-- Models polars Expr as built by convert.rs. -/
inductive Expr
  | BinaryExpr (left : Expr) (op : Operator) (right : Expr)
  | Wildcard
  | Column (name : String)
  | Literal (v : LiteralValue)
  | Alias (e : Expr) (name : String)
deriving DecidableEq

/-- Models CustomError from lib.rs. -/
inductive CustomError
  | SqlExpressionError (s : String)
  | SqlOperatorError (s : String)
  | SqlTableError (s : String)
  | SqlSelectItemError (s : String)
  | SqlExprFuncItem (s : String)
  | SqlExprFuncArgsItem (s : String)
  | SqlOrderError (s : String)
  | SqlValueError (s : String)
  | SqlStatementError (s : String)
  | SqlConvertError (s : String)
  | LoadTypeError (s : String)
  | FetchError (url : String) (error : String)
  | FetchResourceError (s : String)
  | PolarsError (error : String)
deriving DecidableEq

/-- Error kinds: one tag per CustomError variant, used to state which kind
of error an operation can produce independently of its message payload. -/
inductive ErrKind
  | SqlExpressionError
  | SqlOperatorError
  | SqlTableError
  | SqlSelectItemError
  | SqlExprFuncItem
  | SqlExprFuncArgsItem
  | SqlOrderError
  | SqlValueError
  | SqlStatementError
  | SqlConvertError
  | LoadTypeError
  | FetchError
  | FetchResourceError
  | PolarsError
deriving DecidableEq

/-- Kind tag of a CustomError. -/
def CustomError.kind : CustomError → ErrKind
  | .SqlExpressionError _ => .SqlExpressionError
  | .SqlOperatorError _ => .SqlOperatorError
  | .SqlTableError _ => .SqlTableError
  | .SqlSelectItemError _ => .SqlSelectItemError
  | .SqlExprFuncItem _ => .SqlExprFuncItem
  | .SqlExprFuncArgsItem _ => .SqlExprFuncArgsItem
  | .SqlOrderError _ => .SqlOrderError
  | .SqlValueError _ => .SqlValueError
  | .SqlStatementError _ => .SqlStatementError
  | .SqlConvertError _ => .SqlConvertError
  | .LoadTypeError _ => .LoadTypeError
  | .FetchError _ _ => .FetchError
  | .FetchResourceError _ => .FetchResourceError
  | .PolarsError _ => .PolarsError

/-- Boolean test that a character list starts with a given pattern. -/
def startsWithL : List Char → List Char → Bool
  | [], _ => true
  | _ :: _, [] => false
  | p :: ps, c :: cs => p == c && startsWithL ps cs

/-- Models str::split_once on character lists: splits at the first
occurrence of the pattern, returning the text before and after it. -/
def splitOnceL (pat : List Char) : List Char → Option (List Char × List Char)
  | [] => if startsWithL pat [] then some ([], []) else none
  | c :: cs =>
    if startsWithL pat (c :: cs) then some ([], (c :: cs).drop pat.length)
    else (splitOnceL pat cs).map (fun p => (c :: p.1, p.2))

/-- Models str::split_once on strings. -/
def splitOnce (s pat : String) : Option (String × String) :=
  (splitOnceL pat.toList s.toList).map (fun p => (String.mk p.1, String.mk p.2))

/-- Models TryFrom of InterimValue for LiteralValue in convert.rs: a Number
keeps its raw text (the source parses it to f64 with unwrap_or_default);
anything else is a SqlValueError. -/
def tryFromInterimValue : SqlValue → Except CustomError LiteralValue
  | .Number v _ => .ok (.DynFloat v)
  | .Other dbg => .error (.SqlValueError dbg)

/-- Models TryFrom of InterimOperator for Operator in convert.rs: the
thirteen supported operators map to their polars counterparts, everything
else is a SqlOperatorError carrying the operator rendering. -/
def tryFromInterimOperator : SqlBinaryOperator → Except CustomError Operator
  | .Plus => .ok .Plus
  | .Minus => .ok .Minus
  | .Multiply => .ok .Multiply
  | .Divide => .ok .Divide
  | .Modulo => .ok .Modulus
  | .Gt => .ok .Gt
  | .Lt => .ok .Lt
  | .GtEq => .ok .GtEq
  | .LtEq => .ok .LtEq
  | .Eq => .ok .Eq
  | .NotEq => .ok .NotEq
  | .And => .ok .And
  | .Or => .ok .Or
  | v => .error (.SqlOperatorError (sqlBinOpToString v))

/-- Models TryFrom of str for InterimOperator in convert.rs. -/
def strToInterimOperator : String → Except CustomError SqlBinaryOperator
  | ">" => .ok .Gt
  | ">=" => .ok .GtEq
  | "=" => .ok .Eq
  | "<" => .ok .Lt
  | "<=" => .ok .LtEq
  | value => .error (.SqlOperatorError value)

/-- Shared body of one iteration of the operator-probing loop in the
Identifier arm of convert.rs: once split_once has hit, the probe string is
converted to an interim operator and then to a polars Operator, the left
part is re-translated through the expression converter (its result is the
argument le, supplied by the caller), and the right part is wrapped as a
numeric Value and routed through the Value arm of the expression
converter, which yields a Literal. -/
def convertHit (op : String) (le : Except CustomError Expr) (r : String) :
    Except CustomError Expr := do
  let temp ← strToInterimOperator op
  let l ← le
  let o ← tryFromInterimOperator temp
  let lit ← tryFromInterimValue (.Number r true)
  .ok (.BinaryExpr l o (.Literal lit))

/-- Models the Identifier arm of TryFrom of InterimExpr for Expr in
convert.rs: probe the operator substrings in the fixed order of the source
array and reinterpret the identifier text at the first split_once hit,
re-translating the left part recursively (the source recurses through the
full expression converter on a fresh Identifier node, which lands back in
this arm).  The recursion is on ever shorter left parts, bounded here by a
fuel argument; the wrapper convertIdent supplies fuel larger than the text
length, which is always sufficient because a split with a nonempty pattern
strictly shrinks the left part. -/
def convertIdentF : Nat → String → Except CustomError Expr
  | 0, _ => .error (.SqlConvertError "identifier recursion depth exceeded")
  | n + 1, ident =>
    match splitOnce ident "=" with
    | some (l, r) => convertHit "=" (convertIdentF n l) r
    | none =>
    match splitOnce ident ">" with
    | some (l, r) => convertHit ">" (convertIdentF n l) r
    | none =>
    match splitOnce ident ">=" with
    | some (l, r) => convertHit ">=" (convertIdentF n l) r
    | none =>
    match splitOnce ident "<" with
    | some (l, r) => convertHit "<" (convertIdentF n l) r
    | none =>
    match splitOnce ident "<=" with
    | some (l, r) => convertHit "<=" (convertIdentF n l) r
    | none => .ok (.Column ident)

/-- Identifier translation of convert.rs, at always-sufficient fuel. -/
def convertIdent (ident : String) : Except CustomError Expr :=
  convertIdentF (ident.length + 1) ident

/-- Models TryFrom of InterimExpr for Expr in convert.rs. -/
def tryFromInterimExpr : SqlExpr → Except CustomError Expr
  | .BinaryOp left op right => do
    let l ← tryFromInterimExpr left
    let o ← tryFromInterimOperator op
    let r ← tryFromInterimExpr right
    .ok (.BinaryExpr l o r)
  | .Wildcard => .ok .Wildcard
  | .Identifier ident => convertIdent ident.value
  | .Value v => do
    let lit ← tryFromInterimValue v
    .ok (.Literal lit)
  | .Other dbg => .error (.SqlExpressionError dbg)

/-- Models sqlparser SelectItem: the two shapes convert.rs accepts, plus
the wildcard shapes, which in the embedded source fall into the catch-all
error arm.  The dbg payloads stand for the Display renderings used in
error messages. -/
inductive SelectItem
  | UnnamedExpr (e : SqlExpr)
  | ExprWithAlias (expr : SqlExpr) (aliasId : Ident)
  | Wildcard (dbg : String)
  | QualifiedWildcard (dbg : String)
deriving DecidableEq

/-- Approximate Display rendering of a SqlExpr, used only for
error-message payloads. -/
def sqlExprRender : SqlExpr → String
  | .BinaryOp _ op _ => sqlBinOpToString op
  | .Wildcard => "*"
  | .Identifier i => identToString i
  | .Value (.Number v _) => v
  | .Value (.Other dbg) => dbg
  | .Other dbg => dbg

/-- Approximate Display rendering of a SelectItem, used only for
error-message payloads. -/
def selectItemRender : SelectItem → String
  | .UnnamedExpr e => sqlExprRender e
  | .ExprWithAlias e a => sqlExprRender e ++ " AS " ++ a.value
  | .Wildcard dbg => dbg
  | .QualifiedWildcard dbg => dbg

/-- Models TryFrom of InterimSelectItem for Expr in convert.rs: a bare
identifier becomes col(id.to_string()), an aliased identifier becomes
Alias(Column(id.value), alias.value), and every other item shape errors
SqlSelectItemError (the embedded convert.rs has no arm for the wildcard
select item). -/
def tryFromInterimSelectItem : SelectItem → Except CustomError Expr
  | .UnnamedExpr (.Identifier id) => .ok (.Column (identToString id))
  | .ExprWithAlias (.Identifier id) aliasId =>
    .ok (.Alias (.Column id.value) aliasId.value)
  | item => .error (.SqlSelectItemError (selectItemRender item))

/-- Models sqlparser ObjectNamePart (the identifier part of a dotted
object name). -/
inductive ObjectNamePart
  | Identifier (ident : Ident)
deriving DecidableEq

/-- Models sqlparser Join; its contents are never inspected by the source,
only whether the join list is empty. -/
structure Join where
  dbg : String
deriving DecidableEq

/-- Models sqlparser TableFactor: the named-table shape convert.rs
accepts (with a possibly dotted name) and a representative variant for
every other relation shape, which the source sends to its error arm. -/
inductive TableFactor
  | Table (name : List ObjectNamePart)
  | Derived (dbg : String)
deriving DecidableEq

/-- Models sqlparser TableWithJoins. -/
structure TableWithJoins where
  relation : TableFactor
  joins : List Join
deriving DecidableEq

/-- Models TryFrom of InterimSource for a source string in convert.rs:
exactly one table reference, with no joins, whose relation is a named
table with a first identifier part; the extracted source is that first
identifier's bare value.  All failures are SqlTableError (payloads
approximate the formatted debug text of the source). -/
def tryFromInterimSource (source : List TableWithJoins) : Except CustomError String :=
  match source with
  | [table] =>
    if table.joins ≠ [] then .error (.SqlTableError "joint table")
    else
      match table.relation with
      | .Table name =>
        match name.head? with
        | some (.Identifier ident) => .ok ident.value
        | none => .error (.SqlTableError "no name")
      | .Derived dbg => .error (.SqlTableError dbg)
  | _ => .error (.SqlTableError "empty")

/-- Models sqlparser OrderByOptions; the source only reads asc. -/
structure OrderByOptions where
  asc : Option Bool
  nulls_first : Option Bool
deriving DecidableEq

/-- Models sqlparser OrderByExpr. -/
structure OrderByExpr where
  expr : SqlExpr
  options : OrderByOptions
deriving DecidableEq

/-- Models sqlparser OrderByKind. -/
inductive OrderByKind
  | Expressions (l : List OrderByExpr)
  | All (dbg : String)
deriving DecidableEq

/-- Models sqlparser OrderBy; the source only reads kind. -/
structure OrderBy where
  kind : OrderByKind
deriving DecidableEq

/-- Models one iteration of the rfold closure in the order-by conversion
of convert.rs: an identifier entry resolves its direction from its
explicit asc option, else from the last already-pushed (more rightward)
entry, else Descending, and is appended; a non-identifier entry only
prints a message and leaves the accumulator unchanged. -/
def orderStep (acc : List (String × OrderType)) (order_by : OrderByExpr) :
    List (String × OrderType) :=
  match order_by.expr with
  | .Identifier id =>
    let order_type :=
      match order_by.options.asc with
      | some is_asc => if is_asc then OrderType.Asc else OrderType.Desc
      | none =>
        match acc.getLast? with
        | some p => p.2
        | none => OrderType.Desc
    acc ++ [(id.value, order_type)]
  | _ => acc

/-- Models TryFrom of InterimOrderBy for the order-by pair list in
convert.rs: an rfold over the entries from the right, then a reversal to
restore source order.  Any non-Expressions kind yields the empty list; the
function always returns Ok. -/
def tryFromInterimOrderBy (o : OrderBy) : Except CustomError (List (String × OrderType)) :=
  let order_list :=
    match o.kind with
    | .Expressions order_by_list =>
      (order_by_list.foldr (fun ob acc => orderStep acc ob) []).reverse
    | _ => []
  .ok order_list

/-- Rust usize::MAX on a 64-bit target. -/
def usizeMax : Nat := 2 ^ 64 - 1

/-- Rust i64::MAX. -/
def i64Max : Int := 2 ^ 63 - 1

/-- Rust i64::MIN. -/
def i64Min : Int := -(2 ^ 63)

/-- Value of a decimal digit string. -/
def natOfDigits (cs : List Char) : Nat :=
  cs.foldl (fun acc c => acc * 10 + (c.toNat - 48)) 0

/-- Models str::parse for usize: an optional leading plus sign followed by
at least one decimal digit, failing on any other character and on
overflow past usize::MAX. -/
def rustParseUsize (s : String) : Option Nat :=
  let cs :=
    match s.toList with
    | '+' :: rest => rest
    | cs => cs
  if cs.isEmpty then none
  else if cs.all Char.isDigit then
    let n := natOfDigits cs
    if n ≤ usizeMax then some n else none
  else none

/-- Models str::parse for i64: an optional sign followed by at least one
decimal digit, failing on any other character and out of the i64 range. -/
def rustParseI64 (s : String) : Option Int :=
  let signed :=
    match s.toList with
    | '+' :: rest => (false, rest)
    | '-' :: rest => (true, rest)
    | cs => (false, cs)
  let cs := signed.2
  if cs.isEmpty then none
  else if cs.all Char.isDigit then
    let v : Int := if signed.1 then -(natOfDigits cs : Int) else (natOfDigits cs : Int)
    if i64Min ≤ v ∧ v ≤ i64Max then some v else none
  else none

/-- Models sqlparser Offset; the source only reads value (the rows
keyword is matched with a wildcard). -/
structure SqlOffset where
  value : SqlExpr
deriving DecidableEq

/-- Models sqlparser LimitClause. -/
inductive LimitClause
  | LimitOffset (limit : Option SqlExpr) (offset : Option SqlOffset) (limit_by : List SqlExpr)
  | OffsetCommaLimit (offset : SqlExpr) (limit : SqlExpr)
deriving DecidableEq

/-- Models From of InterimLimit for usize in convert.rs: a numeric value
parses with fallback usize::MAX, a non-numeric value yields 100, and a
non-value expression yields usize::MAX. -/
def interimLimitToUsize : SqlExpr → Nat
  | .Value value =>
    match value with
    | .Number v _ => (rustParseUsize v).getD usizeMax
    | _ => 100
  | _ => usizeMax

/-- Models From of InterimOffset for i64 in convert.rs: a numeric value
parses with fallback 0, anything else yields 0. -/
def interimOffsetToI64 (offset : SqlOffset) : Int :=
  match offset.value with
  | .Value (.Number v _) => (rustParseI64 v).getD 0
  | _ => 0

/-- Models the parts of sqlparser Select that convert.rs destructures;
group_by is bound to a wildcard there and the remaining fields are
elided, so they are ignored by the translation. -/
structure Select where
  from_ : List TableWithJoins
  selection : Option SqlExpr
  projection : List SelectItem
  group_by : List SqlExpr
deriving DecidableEq

/-- Models sqlparser SetExpr: the plain Select body and a representative
variant for every other body shape, which the source rejects. -/
inductive SetExpr
  | Select (s : Select)
  | Other (dbg : String)
deriving DecidableEq

/-- Models the parts of sqlparser Query that convert.rs reads. -/
structure Query where
  limit_clause : Option LimitClause
  order_by : Option OrderBy
  body : SetExpr
deriving DecidableEq

/-- Models sqlparser Statement: a Query statement and a representative
variant for every other statement shape, which the source rejects. -/
inductive Statement
  | Query (q : Query)
  | Other (dbg : String)
deriving DecidableEq

/-- Models the custom Sql struct of convert.rs (the translation output). -/
structure Sql where
  selection : List Expr
  condition : Option Expr
  source : String
  order_by : List (String × OrderType)
  offset : Option Int
  limit : Option Nat
deriving DecidableEq

/-- Models the projection loop in the statement translation of
convert.rs: translate each select item in order, failing on the first
error. -/
def convertProjection : List SelectItem → Except CustomError (List Expr)
  | [] => .ok []
  | p :: ps => do
    let e ← tryFromInterimSelectItem p
    let rest ← convertProjection ps
    .ok (e :: rest)

/-- Models the order-by extraction step of the statement translation in
convert.rs: an absent order-by clause yields the empty list, a present
one is translated. -/
def convertOrderBy (o : Option OrderBy) : Except CustomError (List (String × OrderType)) :=
  match o with
  | some ob => tryFromInterimOrderBy ob
  | none => .ok []

/-- Models the where-clause step of the statement translation in
convert.rs: an absent clause yields none, a present expression is
translated and wrapped in some. -/
def convertCondition (sel : Option SqlExpr) : Except CustomError (Option Expr) :=
  match sel with
  | some e => do
    let c ← tryFromInterimExpr e
    .ok (some c)
  | none => .ok none

/-- Models TryFrom of a Statement reference for Sql in convert.rs: extract
limit and offset from a LimitOffset clause (each mapped through its
infallible numeric conversion when present), translate the order-by list,
require a plain Select body, then translate source, condition and each
projection item in order, failing on the first error. -/
def sqlTryFromStatement : Statement → Except CustomError Sql
  | .Query q =>
    let lo : Option SqlExpr × Option SqlOffset :=
      match q.limit_clause with
      | some (.LimitOffset limit offset _) => (limit, offset)
      | _ => (none, none)
    let limit := lo.1.map interimLimitToUsize
    let offset := lo.2.map interimOffsetToI64
    do
      let order_by ← convertOrderBy q.order_by
      match q.body with
      | .Select sel => do
        let source ← tryFromInterimSource sel.from_
        let condition ← convertCondition sel.selection
        let selection ← convertProjection sel.projection
        .ok { selection := selection, condition := condition, source := source,
              order_by := order_by, offset := offset, limit := limit }
      | .Other dbg => .error (.SqlExpressionError dbg)
  | .Other dbg => .error (.SqlStatementError dbg)

/-- Outcome of a fetch step in fetcher.rs, with an explicit variant for a
Rust panic (an out-of-bounds string slice). -/
inductive FetchOutcome
  | panicked
  | ok (body : String)
  | error (e : CustomError)
deriving DecidableEq

/-- Models UrlFetcher::fetch from fetcher.rs over an abstract network: net
maps a URL to a response body or an underlying error text; an error is
wrapped as FetchError with the source as url.  Sources are byte
sequences, modelled as character lists (the scheme prefixes the code
slices are ASCII). -/
def urlFetch (net : List Char → Except String String) (source : List Char) : FetchOutcome :=
  match net source with
  | .ok body => .ok body
  | .error e => .error (.FetchError (String.mk source) e)

/-- Models FileFetcher::fetch from fetcher.rs over an abstract filesystem:
the source is byte-sliced from index 7 (panicking when it is shorter than
7, exactly as the Rust slice does), the remainder is read through fs, and
an underlying error is wrapped as FetchError with the source as url. -/
def fileFetch (fs : List Char → Except String String) (source : List Char) : FetchOutcome :=
  if source.length < 7 then .panicked
  else
    match fs (source.drop 7) with
    | .ok body => .ok body
    | .error e => .error (.FetchError (String.mk source) e)

/-- Models retrieve_data from fetcher.rs: slice the first four bytes of
the source (panicking when it is shorter than 4, exactly as the Rust
slice does) and dispatch on them; http goes to the URL fetcher, file to
the file fetcher, anything else is FetchResourceError carrying the
sliced prefix. -/
def retrieve_data (net fs : List Char → Except String String) (source : List Char) :
    FetchOutcome :=
  if source.length < 4 then .panicked
  else
    let name := source.take 4
    if name = "http".toList then urlFetch net source
    else if name = "file".toList then fileFetch fs source
    else .error (.FetchResourceError (String.mk name))

/-- Abstract table engine: the polars operations lib.rs requests.  A table
is a list of rows of an arbitrary row type; the engine operations are
opaque functions, since their internal algorithms are external to the
embedded crate.  The slice operation is concrete (polarsSlice) because the
default-limit policy of lib.rs depends on its row-count semantics. -/
structure Engine (Row : Type) where
  filter : Expr → List Row → List Row
  sort : List String → List Bool → List Row → List Row
  groupByAgg : List Expr → List Expr → List Row → List Row
  select : List Expr → List Row → List Row

/-- Models polars LazyFrame::slice on a list of rows: a nonnegative offset
drops that many leading rows, a negative offset starts counting from the
end, and at most len rows are taken. -/
def polarsSlice {Row : Type} (t : List Row) (offset : Int) (len : Nat) : List Row :=
  let start : Nat := (if offset < 0 then (Int.ofNat t.length + offset) else offset).toNat
  (t.drop start).take len

/-- Modelled from the spec: the Sql struct that lib.rs destructures.  The
convert.rs under the embedded sources is a stale snapshot whose Sql struct
lacks the group_by and aggregation fields that query in lib.rs reads, so
those two fields are taken from the spec data model: group_by is an
ordered sequence of column names (empty means no grouping) and
aggregation an ordered sequence of aggregate expressions. -/
structure SqlFull where
  selection : List Expr
  condition : Option Expr
  source : String
  order_by : List (String × OrderType)
  offset : Option Int
  limit : Option Nat
  group_by : List String
  aggregation : List Expr
deriving DecidableEq

/-- Filter phase of query in lib.rs: apply the condition when present. -/
def filterPhase {Row : Type} (E : Engine Row) (s : SqlFull) (ds : List Row) : List Row :=
  match s.condition with
  | some e => E.filter e ds
  | none => ds

/-- Sort phase of the simple-select branch of query in lib.rs: map each
order-by pair to (column, is-descending), unzip, and sort. -/
def sortPhase {Row : Type} (E : Engine Row) (s : SqlFull) (ds : List Row) : List Row :=
  let order_list := s.order_by.map (fun p => (p.1, p.2 == OrderType.Desc))
  E.sort (order_list.map Prod.fst) (order_list.map Prod.snd) (filterPhase E s ds)

/-- Models the execution pipeline of query in lib.rs, from the loaded
table to the collected result: filter by the condition, then either the
group-by branch (group by the key columns as column expressions, apply
the aggregation expressions, project the selection) when group_by is
nonempty, or the simple-select branch (sort by the order-by list, slice
when offset or limit is present, starting at offset-or-0 and taking
limit-or-20 rows, then project the selection). -/
def runQuery {Row : Type} (E : Engine Row) (s : SqlFull) (ds : List Row) : List Row :=
  if s.group_by.length > 0 then
    E.select s.selection
      (E.groupByAgg (s.group_by.map Expr.Column) s.aggregation (filterPhase E s ds))
  else
    let sorted := sortPhase E s ds
    let sliced :=
      if s.offset.isSome || s.limit.isSome then
        polarsSlice sorted (s.offset.getD 0) (s.limit.getD 20)
      else sorted
    E.select s.selection sliced

/-- Written from the claim wording for comparison with the source
translation: the documented operator table, mapping each of the thirteen
supported SQL binary operators to its Operator variant and everything
else to none. -/
def specOperatorMap : SqlBinaryOperator → Option Operator
  | .Plus => some .Plus
  | .Minus => some .Minus
  | .Multiply => some .Multiply
  | .Divide => some .Divide
  | .Modulo => some .Modulus
  | .Gt => some .Gt
  | .Lt => some .Lt
  | .GtEq => some .GtEq
  | .LtEq => some .LtEq
  | .Eq => some .Eq
  | .NotEq => some .NotEq
  | .And => some .And
  | .Or => some .Or
  | _ => none

/-- Written from the claim wording for comparison with the source
translation: the direction inherited from the entries to the right of an
entry with no explicit direction, namely the direction of the nearest
entry to the right that has an explicit one, defaulting to Descending. -/
def inheritDir : List (String × Option Bool) → OrderType
  | [] => .Desc
  | (_, some true) :: _ => .Asc
  | (_, some false) :: _ => .Desc
  | (_, none) :: rest => inheritDir rest

/-- Written from the claim wording for comparison with the source
translation: resolve an order-by list of named entries with optional
explicit directions, each entry keeping its explicit direction or
inheriting per inheritDir, in original left-to-right order. -/
def specResolve : List (String × Option Bool) → List (String × OrderType)
  | [] => []
  | (n, d) :: rest =>
    (n, match d with
        | some true => OrderType.Asc
        | some false => OrderType.Desc
        | none => inheritDir rest) :: specResolve rest

/-- Builds an order-by entry list of bare identifiers with optional
explicit directions. -/
def identOrderList (l : List (String × Option Bool)) : List OrderByExpr :=
  l.map (fun p => ⟨.Identifier ⟨p.1, none⟩, ⟨p.2, none⟩⟩)

/-- Trivial concrete engine over Nat rows, used to instantiate pipeline
theorems on concrete inputs: every operation is the identity on the row
list. -/
def idEngine : Engine Nat where
  filter := fun _ t => t
  sort := fun _ _ t => t
  groupByAgg := fun _ _ t => t
  select := fun _ t => t

/-- Concrete statement whose LIMIT value 1.5 fails the usize parse and
whose OFFSET value xyz fails the i64 parse, over a minimal valid single
table query. -/
def c4stmt : Statement := .Query
  { limit_clause := some (.LimitOffset (some (.Value (.Number "1.5" false)))
      (some ⟨.Value (.Number "xyz" false)⟩) [])
    order_by := none
    body := .Select
      { from_ := [⟨.Table [.Identifier ⟨"t", none⟩], []⟩]
        selection := none
        projection := []
        group_by := [] } }

/-! Helper lemmas. -/

/-- Bind of an ok value in the Except monad. -/
theorem qbind_ok {ε α β : Type} (a : α) (f : α → Except ε β) :
    (Except.ok a : Except ε α) >>= f = f a := rfl

/-- Bind of an error in the Except monad. -/
theorem qbind_error {ε α β : Type} (e : ε) (f : α → Except ε β) :
    (Except.error e : Except ε α) >>= f = .error e := rfl

/-- A split with a nonempty pattern produces a left part strictly shorter
than the input. -/
theorem splitOnceL_left_length (pat : List Char) (hp : pat ≠ []) :
    ∀ (s l r : List Char), splitOnceL pat s = some (l, r) → l.length < s.length := by
  intro s
  induction s with
  | nil =>
    intro l r h
    obtain ⟨p, ps, rfl⟩ : ∃ p ps, pat = p :: ps := by
      cases pat with
      | nil => exact absurd rfl hp
      | cons p ps => exact ⟨p, ps, rfl⟩
    simp [splitOnceL, startsWithL] at h
  | cons c cs ih =>
    intro l r h
    rw [splitOnceL] at h
    by_cases hs : startsWithL pat (c :: cs) = true
    · simp only [hs, if_true] at h
      injection h with h1
      obtain ⟨rfl, rfl⟩ := Prod.mk.injEq .. ▸ And.intro (congrArg Prod.fst h1) (congrArg Prod.snd h1)
      simp
    · simp only [hs, if_false] at h
      cases hsp : splitOnceL pat cs with
      | none => rw [hsp] at h; simp at h
      | some p =>
        rw [hsp] at h
        simp only [Option.map_some'] at h
        injection h with h1
        have hfst := congrArg Prod.fst h1
        have hsnd := congrArg Prod.snd h1
        simp only at hfst hsnd
        subst hfst
        have := ih p.1 p.2 (by rw [hsp])
        simp only [List.length_cons]
        omega

/-- String version of the split length bound. -/
theorem splitOnce_left_length {s pat l r : String} (hp : pat.toList ≠ [])
    (h : splitOnce s pat = some (l, r)) : l.length < s.length := by
  unfold splitOnce at h
  cases hsp : splitOnceL pat.toList s.toList with
  | none => rw [hsp] at h; simp at h
  | some p =>
    rw [hsp] at h
    simp only [Option.map_some'] at h
    injection h with h1
    have hfst := congrArg Prod.fst h1
    simp only at hfst
    have hlen := splitOnceL_left_length pat.toList hp s.toList p.1 p.2 hsp
    subst hfst
    exact hlen

/-- The hit body for the probe string "=" on an ok left part. -/
theorem convertHit_eq_ok (e : Expr) (r : String) :
    convertHit "=" (.ok e) r = .ok (.BinaryExpr e .Eq (.Literal (.DynFloat r))) := rfl

/-- The hit body for the probe string ">" on an ok left part. -/
theorem convertHit_gt_ok (e : Expr) (r : String) :
    convertHit ">" (.ok e) r = .ok (.BinaryExpr e .Gt (.Literal (.DynFloat r))) := rfl

/-- The hit body for the probe string "<" on an ok left part. -/
theorem convertHit_lt_ok (e : Expr) (r : String) :
    convertHit "<" (.ok e) r = .ok (.BinaryExpr e .Lt (.Literal (.DynFloat r))) := rfl

/-- The hit body for the probe string ">=" on an ok left part. -/
theorem convertHit_ge_ok (e : Expr) (r : String) :
    convertHit ">=" (.ok e) r = .ok (.BinaryExpr e .GtEq (.Literal (.DynFloat r))) := rfl

/-- The hit body for the probe string "<=" on an ok left part. -/
theorem convertHit_le_ok (e : Expr) (r : String) :
    convertHit "<=" (.ok e) r = .ok (.BinaryExpr e .LtEq (.Literal (.DynFloat r))) := rfl

/-- Fuel irrelevance: any two fuel values above the text length give the
same result. -/
theorem convertIdentF_fuel :
    ∀ (n m : Nat) (s : String), s.length < n → s.length < m →
      convertIdentF n s = convertIdentF m s := by
  intro n
  induction n using Nat.strong_induction_on with
  | _ n ih =>
    intro m s hn hm
    match n, m with
    | 0, _ => omega
    | _, 0 => omega
    | n' + 1, m' + 1 =>
      rw [convertIdentF, convertIdentF]
      cases h1 : splitOnce s "=" with
      | some p =>
        obtain ⟨l, r⟩ := p
        have hl : l.length < s.length := splitOnce_left_length (by decide) h1
        simp only [ih n' (by omega) m' l (by omega) (by omega)]
      | none =>
      cases h2 : splitOnce s ">" with
      | some p =>
        obtain ⟨l, r⟩ := p
        have hl : l.length < s.length := splitOnce_left_length (by decide) h2
        simp only [ih n' (by omega) m' l (by omega) (by omega)]
      | none =>
      cases h3 : splitOnce s ">=" with
      | some p =>
        obtain ⟨l, r⟩ := p
        have hl : l.length < s.length := splitOnce_left_length (by decide) h3
        simp only [ih n' (by omega) m' l (by omega) (by omega)]
      | none =>
      cases h4 : splitOnce s "<" with
      | some p =>
        obtain ⟨l, r⟩ := p
        have hl : l.length < s.length := splitOnce_left_length (by decide) h4
        simp only [ih n' (by omega) m' l (by omega) (by omega)]
      | none =>
      cases h5 : splitOnce s "<=" with
      | some p =>
        obtain ⟨l, r⟩ := p
        have hl : l.length < s.length := splitOnce_left_length (by decide) h5
        simp only [ih n' (by omega) m' l (by omega) (by omega)]
      | none => rfl

/-- With fuel above the text length, identifier translation never
errors. -/
theorem convertIdentF_ok :
    ∀ (n : Nat) (s : String), s.length < n → ∃ e, convertIdentF n s = .ok e := by
  intro n
  induction n using Nat.strong_induction_on with
  | _ n ih =>
    intro s hn
    match n with
    | 0 => omega
    | n' + 1 =>
      rw [convertIdentF]
      cases h1 : splitOnce s "=" with
      | some p =>
        obtain ⟨l, r⟩ := p
        have hl : l.length < s.length := splitOnce_left_length (by decide) h1
        obtain ⟨e, he⟩ := ih n' (by omega) l (by omega)
        exact ⟨.BinaryExpr e .Eq (.Literal (.DynFloat r)), by simp only [he, convertHit_eq_ok]⟩
      | none =>
      cases h2 : splitOnce s ">" with
      | some p =>
        obtain ⟨l, r⟩ := p
        have hl : l.length < s.length := splitOnce_left_length (by decide) h2
        obtain ⟨e, he⟩ := ih n' (by omega) l (by omega)
        exact ⟨.BinaryExpr e .Gt (.Literal (.DynFloat r)), by simp only [he, convertHit_gt_ok]⟩
      | none =>
      cases h3 : splitOnce s ">=" with
      | some p =>
        obtain ⟨l, r⟩ := p
        have hl : l.length < s.length := splitOnce_left_length (by decide) h3
        obtain ⟨e, he⟩ := ih n' (by omega) l (by omega)
        exact ⟨.BinaryExpr e .GtEq (.Literal (.DynFloat r)), by simp only [he, convertHit_ge_ok]⟩
      | none =>
      cases h4 : splitOnce s "<" with
      | some p =>
        obtain ⟨l, r⟩ := p
        have hl : l.length < s.length := splitOnce_left_length (by decide) h4
        obtain ⟨e, he⟩ := ih n' (by omega) l (by omega)
        exact ⟨.BinaryExpr e .Lt (.Literal (.DynFloat r)), by simp only [he, convertHit_lt_ok]⟩
      | none =>
      cases h5 : splitOnce s "<=" with
      | some p =>
        obtain ⟨l, r⟩ := p
        have hl : l.length < s.length := splitOnce_left_length (by decide) h5
        obtain ⟨e, he⟩ := ih n' (by omega) l (by omega)
        exact ⟨.BinaryExpr e .LtEq (.Literal (.DynFloat r)), by simp only [he, convertHit_le_ok]⟩
      | none => exact ⟨_, rfl⟩

/-- The wrapper agrees with any sufficient fuel. -/
theorem convertIdent_eq_fuel (n : Nat) (s : String) (h : s.length < n) :
    convertIdent s = convertIdentF n s :=
  convertIdentF_fuel (s.length + 1) n s (by omega) h

/-- Identifier translation never errors. -/
theorem convertIdent_ok (s : String) : ∃ e, convertIdent s = .ok e :=
  convertIdentF_ok (s.length + 1) s (by omega)

/-- If a single-character pattern has no occurrence, no extension of it
has one either. -/
theorem splitOnceL_extend_none (c : Char) (ps : List Char) :
    ∀ s, splitOnceL [c] s = none → splitOnceL (c :: ps) s = none := by
  intro s
  induction s with
  | nil =>
    intro h
    simp [splitOnceL, startsWithL]
  | cons d ds ih =>
    intro h
    rw [splitOnceL] at h ⊢
    by_cases hcd : (c == d) = true
    · exfalso
      have : startsWithL [c] (d :: ds) = true := by
        simp [startsWithL, hcd]
      rw [if_pos this] at h
      simp at h
    · have h1 : startsWithL [c] (d :: ds) = false := by
        simp [startsWithL] at hcd ⊢
        exact hcd
      have h2 : startsWithL (c :: ps) (d :: ds) = false := by
        simp [startsWithL] at hcd ⊢
        intro hc
        exact absurd hc hcd
      rw [h1] at h
      rw [h2]
      simp only [Bool.false_eq_true, if_false] at h ⊢
      rw [Option.map_eq_none'] at h ⊢
      exact ih h

/-- String version: when the one-character operator does not occur, its
two-character extension does not occur. -/
theorem splitOnce_extend_none {s : String} {c : Char} {pat2 : String}
    (hpat : pat2.toList = c :: pat2.toList.tail)
    (h : splitOnce s (String.mk [c]) = none) : splitOnce s pat2 = none := by
  unfold splitOnce at h ⊢
  rw [Option.map_eq_none'] at h ⊢
  rw [hpat]
  exact splitOnceL_extend_none c _ s.toList h

/-- Hit characterization for the probe "=": the whole expression
converter, applied to an identifier containing "=", splits at its first
occurrence, re-translates the left part as an identifier, and wraps the
right part as a numeric literal. -/
theorem convertIdent_split_eq {s l r : String} (h : splitOnce s "=" = some (l, r))
    (e : Expr) (hl : convertIdent l = .ok e) :
    convertIdent s = .ok (.BinaryExpr e .Eq (.Literal (.DynFloat r))) := by
  have hlen : l.length < s.length := splitOnce_left_length (by decide) h
  rw [convertIdent, convertIdentF]
  simp only [h, ← convertIdent_eq_fuel s.length l hlen, hl, convertHit_eq_ok]

/-- Hit characterization for the probe ">", reached only when "=" has no
occurrence. -/
theorem convertIdent_split_gt {s l r : String} (h1 : splitOnce s "=" = none)
    (h2 : splitOnce s ">" = some (l, r)) (e : Expr) (hl : convertIdent l = .ok e) :
    convertIdent s = .ok (.BinaryExpr e .Gt (.Literal (.DynFloat r))) := by
  have hlen : l.length < s.length := splitOnce_left_length (by decide) h2
  rw [convertIdent, convertIdentF]
  simp only [h1, h2, ← convertIdent_eq_fuel s.length l hlen, hl, convertHit_gt_ok]

/-- Hit characterization for the probe "<", reached only when "=" and ">"
have no occurrence (which also rules out the ">=" probe). -/
theorem convertIdent_split_lt {s l r : String} (h1 : splitOnce s "=" = none)
    (h2 : splitOnce s ">" = none) (h3 : splitOnce s "<" = some (l, r))
    (e : Expr) (hl : convertIdent l = .ok e) :
    convertIdent s = .ok (.BinaryExpr e .Lt (.Literal (.DynFloat r))) := by
  have hlen : l.length < s.length := splitOnce_left_length (by decide) h3
  have h2' : splitOnce s ">=" = none := splitOnce_extend_none (by decide) h2
  rw [convertIdent, convertIdentF]
  simp only [h1, h2, h2', h3, ← convertIdent_eq_fuel s.length l hlen, hl, convertHit_lt_ok]

/-- When none of the embedded operator substrings occurs, an identifier
translates to a bare column with the full text. -/
theorem convertIdent_no_split {s : String} (h1 : splitOnce s "=" = none)
    (h2 : splitOnce s ">" = none) (h3 : splitOnce s "<" = none) :
    convertIdent s = .ok (.Column s) := by
  have h2' : splitOnce s ">=" = none := splitOnce_extend_none (by decide) h2
  have h3' : splitOnce s "<=" = none := splitOnce_extend_none (by decide) h3
  rw [convertIdent, convertIdentF]
  simp only [h1, h2, h2', h3, h3']

/-- Value translation only ever errors with SqlValueError. -/
theorem kind_value : ∀ (v : SqlValue) (e : CustomError),
    tryFromInterimValue v = .error e → e.kind = .SqlValueError := by
  intro v e h
  cases v with
  | Number v b => simp [tryFromInterimValue] at h
  | Other d =>
    simp [tryFromInterimValue] at h
    rw [← h]
    rfl

/-- Operator translation only ever errors with SqlOperatorError. -/
theorem kind_operator : ∀ (op : SqlBinaryOperator) (e : CustomError),
    tryFromInterimOperator op = .error e → e.kind = .SqlOperatorError := by
  intro op e h
  cases op <;> simp [tryFromInterimOperator] at h <;> (rw [← h]; rfl)

/-- Probe-string operator translation only ever errors with
SqlOperatorError. -/
theorem kind_str_operator : ∀ (s : String) (e : CustomError),
    strToInterimOperator s = .error e → e.kind = .SqlOperatorError := by
  intro s e h
  unfold strToInterimOperator at h
  split at h <;> simp at h <;> (rw [← h]; rfl)

/-- The probe-hit body never errors with SqlOrderError, provided its left
part input does not. -/
theorem kind_convertHit : ∀ (op : String) (le : Except CustomError Expr) (r : String)
    (e : CustomError), (∀ e', le = .error e' → e'.kind ≠ .SqlOrderError) →
    convertHit op le r = .error e → e.kind ≠ .SqlOrderError := by
  intro op le r e hle h
  unfold convertHit at h
  cases hop : strToInterimOperator op with
  | error e1 =>
    rw [hop, qbind_error] at h
    injection h with h1
    subst h1
    rw [kind_str_operator op e1 hop]
    decide
  | ok temp =>
    rw [hop, qbind_ok] at h
    cases hl : le with
    | error e2 =>
      rw [hl, qbind_error] at h
      injection h with h1
      subst h1
      exact hle e2 hl
    | ok l =>
      rw [hl, qbind_ok] at h
      cases hto : tryFromInterimOperator temp with
      | error e3 =>
        rw [hto, qbind_error] at h
        injection h with h1
        subst h1
        rw [kind_operator temp e3 hto]
        decide
      | ok o =>
        rw [hto, qbind_ok, show tryFromInterimValue (.Number r true) = .ok (.DynFloat r) from rfl,
          qbind_ok] at h
        simp at h

/-- Fueled identifier translation never errors with SqlOrderError. -/
theorem kind_convertIdentF : ∀ (n : Nat) (s : String) (e : CustomError),
    convertIdentF n s = .error e → e.kind ≠ .SqlOrderError := by
  intro n
  induction n with
  | zero =>
    intro s e h
    rw [convertIdentF] at h
    injection h with h1
    subst h1
    decide
  | succ n ih =>
    intro s e h
    rw [convertIdentF] at h
    cases h1 : splitOnce s "=" with
    | some p =>
      obtain ⟨l, r⟩ := p
      simp only [h1] at h
      exact kind_convertHit _ _ _ _ (fun e' he' => ih l e' he') h
    | none =>
    cases h2 : splitOnce s ">" with
    | some p =>
      obtain ⟨l, r⟩ := p
      simp only [h1, h2] at h
      exact kind_convertHit _ _ _ _ (fun e' he' => ih l e' he') h
    | none =>
    cases h3 : splitOnce s ">=" with
    | some p =>
      obtain ⟨l, r⟩ := p
      simp only [h1, h2, h3] at h
      exact kind_convertHit _ _ _ _ (fun e' he' => ih l e' he') h
    | none =>
    cases h4 : splitOnce s "<" with
    | some p =>
      obtain ⟨l, r⟩ := p
      simp only [h1, h2, h3, h4] at h
      exact kind_convertHit _ _ _ _ (fun e' he' => ih l e' he') h
    | none =>
    cases h5 : splitOnce s "<=" with
    | some p =>
      obtain ⟨l, r⟩ := p
      simp only [h1, h2, h3, h4, h5] at h
      exact kind_convertHit _ _ _ _ (fun e' he' => ih l e' he') h
    | none =>
      simp only [h1, h2, h3, h4, h5] at h
      simp at h

/-- Expression translation never errors with SqlOrderError. -/
theorem kind_expr : ∀ (ex : SqlExpr) (e : CustomError),
    tryFromInterimExpr ex = .error e → e.kind ≠ .SqlOrderError := by
  intro ex
  induction ex with
  | BinaryOp l op r ihl ihr =>
    intro e h
    rw [tryFromInterimExpr] at h
    cases hl : tryFromInterimExpr l with
    | error e1 =>
      rw [hl, qbind_error] at h
      injection h with h1
      subst h1
      exact ihl e1 hl
    | ok a =>
      rw [hl, qbind_ok] at h
      cases hop : tryFromInterimOperator op with
      | error e2 =>
        rw [hop, qbind_error] at h
        injection h with h1
        subst h1
        rw [kind_operator op e2 hop]
        decide
      | ok o =>
        rw [hop, qbind_ok] at h
        cases hr : tryFromInterimExpr r with
        | error e3 =>
          rw [hr, qbind_error] at h
          injection h with h1
          subst h1
          exact ihr e3 hr
        | ok b =>
          rw [hr, qbind_ok] at h
          simp at h
  | Wildcard =>
    intro e h
    simp [tryFromInterimExpr] at h
  | Identifier id =>
    intro e h
    exact kind_convertIdentF (id.value.length + 1) id.value e h
  | Value v =>
    intro e h
    rw [tryFromInterimExpr] at h
    cases hv : tryFromInterimValue v with
    | error e1 =>
      rw [hv, qbind_error] at h
      injection h with h1
      subst h1
      rw [kind_value v e1 hv]
      decide
    | ok lv =>
      rw [hv, qbind_ok] at h
      simp at h
  | Other dbg =>
    intro e h
    rw [tryFromInterimExpr] at h
    injection h with h1
    subst h1
    simp [CustomError.kind]

/-- Select-item translation only ever errors with SqlSelectItemError. -/
theorem kind_select_item : ∀ (p : SelectItem) (e : CustomError),
    tryFromInterimSelectItem p = .error e → e.kind = .SqlSelectItemError := by
  intro p e h
  unfold tryFromInterimSelectItem at h
  split at h <;> simp at h <;> (rw [← h]; rfl)

/-- The projection loop only ever errors with SqlSelectItemError. -/
theorem kind_projection : ∀ (ps : List SelectItem) (e : CustomError),
    convertProjection ps = .error e → e.kind = .SqlSelectItemError := by
  intro ps
  induction ps with
  | nil =>
    intro e h
    simp [convertProjection] at h
  | cons p rest ih =>
    intro e h
    rw [convertProjection] at h
    cases hp : tryFromInterimSelectItem p with
    | error e1 =>
      rw [hp, qbind_error] at h
      injection h with h1
      subst h1
      exact kind_select_item p e1 hp
    | ok a =>
      rw [hp, qbind_ok] at h
      cases hres : convertProjection rest with
      | error e2 =>
        rw [hres, qbind_error] at h
        injection h with h1
        subst h1
        exact ih e2 hres
      | ok bs =>
        rw [hres, qbind_ok] at h
        simp at h

/-- The order-by extraction step always succeeds. -/
theorem convertOrderBy_ok (o : Option OrderBy) : ∃ res, convertOrderBy o = .ok res := by
  cases o with
  | some ob => exact ⟨_, rfl⟩
  | none => exact ⟨[], rfl⟩

/-- The where-clause step never errors with SqlOrderError. -/
theorem kind_condition : ∀ (selOpt : Option SqlExpr) (e : CustomError),
    convertCondition selOpt = .error e → e.kind ≠ .SqlOrderError := by
  intro selOpt e h
  cases selOpt with
  | none => simp [convertCondition] at h
  | some ex =>
    rw [convertCondition] at h
    cases hex : tryFromInterimExpr ex with
    | error e1 =>
      rw [hex, qbind_error] at h
      injection h with h1
      subst h1
      exact kind_expr ex e1 hex
    | ok c =>
      rw [hex, qbind_ok] at h
      simp at h

/-- Source translation only ever errors with SqlTableError. -/
theorem kind_source : ∀ (src : List TableWithJoins) (e : CustomError),
    tryFromInterimSource src = .error e → e.kind = .SqlTableError := by
  intro src e h
  unfold tryFromInterimSource at h
  split at h
  · split at h <;> try (simp at h; rw [← h]; rfl)
    split at h
    · split at h <;> simp at h
      rw [← h]
      rfl
    · simp at h
      rw [← h]
      rfl
  · simp at h
    rw [← h]
    rfl

/-- The rfold of the source, on a list of bare identifier entries,
computes the reversal of the claim-side resolution. -/
theorem orderFold_identifiers :
    ∀ l : List (String × Option Bool),
      (identOrderList l).foldr (fun ob acc => orderStep acc ob) [] = (specResolve l).reverse := by
  intro l
  induction l with
  | nil => rfl
  | cons p rest ih =>
    obtain ⟨n, d⟩ := p
    simp only [identOrderList, List.map_cons, List.foldr_cons] at ih ⊢
    rw [ih]
    simp only [orderStep, specResolve, List.reverse_cons]
    congr 2
    cases d with
    | some b => cases b <;> rfl
    | none =>
      rw [List.getLast?_reverse]
      cases rest with
      | nil => rfl
      | cons q rest' =>
        obtain ⟨n', d'⟩ := q
        cases d' with
        | some b => cases b <;> rfl
        | none => rfl

/-- The rfold of the source keeps exactly the identifier entries, in
order: mapping the result to its names gives the reversal of the
identifier names of the input. -/
theorem orderFold_names :
    ∀ l : List OrderByExpr,
      ((l.foldr (fun ob acc => orderStep acc ob) []).map Prod.fst) =
        (l.filterMap fun ob =>
          match ob.expr with
          | .Identifier id => some id.value
          | _ => none).reverse := by
  intro l
  induction l with
  | nil => rfl
  | cons ob rest ih =>
    obtain ⟨ex, opts⟩ := ob
    simp only [List.foldr_cons, List.filterMap_cons]
    cases ex with
    | Identifier id =>
      generalize List.foldr (fun ob acc => orderStep acc ob) [] rest = G at ih ⊢
      simp only [orderStep, List.map_append, ih, List.reverse_cons, List.map_cons,
        List.map_nil]
    | BinaryOp l' op r' => simpa [orderStep] using ih
    | Wildcard => simpa [orderStep] using ih
    | Value v => simpa [orderStep] using ih
    | Other dbg => simpa [orderStep] using ih

/-! Claim theorems. -/

/-- C2: for every order-by list of identifier entries with partially
specified directions, the translation resolves each entry with no
explicit direction to the direction of the nearest entry to its right
with an explicit one (Descending when there is none), returning the pairs
in original left-to-right order; in particular ORDER BY c, e DESC, b ASC
resolves to [(c, Desc), (e, Desc), (b, Asc)]. -/
theorem c2_order_direction_inheritance :
    (∀ l : List (String × Option Bool),
      tryFromInterimOrderBy ⟨.Expressions (identOrderList l)⟩ = .ok (specResolve l)) ∧
    tryFromInterimOrderBy ⟨.Expressions (identOrderList
      [("c", none), ("e", some false), ("b", some true)])⟩ =
      .ok [("c", .Desc), ("e", .Desc), ("b", .Asc)] := by
  constructor
  · intro l
    simp only [tryFromInterimOrderBy]
    rw [orderFold_identifiers, List.reverse_reverse]
  · decide

/-- C3 counterexample: the identifier token a>=1 is not translated to a
binary operation whose left side is a column; the probe order splits it
at = first, and the left part a> is itself re-split, producing a nested
binary expression, contrary to the claimed shape
BinaryOp(Column(left part), op, Literal(right part)). -/
theorem c3_counterexample :
    tryFromInterimExpr (.Identifier ⟨"a>=1", none⟩) =
      .ok (.BinaryExpr (.BinaryExpr (.Column "a") .Gt (.Literal (.DynFloat "")))
        .Eq (.Literal (.DynFloat "1"))) ∧
    (match tryFromInterimExpr (.Identifier ⟨"a>=1", none⟩) with
     | .ok (.BinaryExpr (.Column _) _ _) => true
     | _ => false) = false := by
  constructor
  · decide
  · decide

/-- C3 amended: an identifier token embedding an operator substring is
split at the first occurrence found in the fixed probe order =, then >,
then < (so = takes precedence over >= and <=, whose probes can never
fire); the left part is re-translated through the identifier translation
(and may split again), the right part becomes a numeric literal of the
right text; an identifier embedding none of the operator substrings
translates to a column of the full text. -/
theorem c3_embedded_operator_split : ∀ (s l r : String) (e : Expr),
    (splitOnce s "=" = some (l, r) →
      tryFromInterimExpr (.Identifier ⟨l, none⟩) = .ok e →
      tryFromInterimExpr (.Identifier ⟨s, none⟩) =
        .ok (.BinaryExpr e .Eq (.Literal (.DynFloat r)))) ∧
    (splitOnce s "=" = none → splitOnce s ">" = some (l, r) →
      tryFromInterimExpr (.Identifier ⟨l, none⟩) = .ok e →
      tryFromInterimExpr (.Identifier ⟨s, none⟩) =
        .ok (.BinaryExpr e .Gt (.Literal (.DynFloat r)))) ∧
    (splitOnce s "=" = none → splitOnce s ">" = none → splitOnce s "<" = some (l, r) →
      tryFromInterimExpr (.Identifier ⟨l, none⟩) = .ok e →
      tryFromInterimExpr (.Identifier ⟨s, none⟩) =
        .ok (.BinaryExpr e .Lt (.Literal (.DynFloat r)))) ∧
    (splitOnce s "=" = none → splitOnce s ">" = none → splitOnce s "<" = none →
      tryFromInterimExpr (.Identifier ⟨s, none⟩) = .ok (.Column s)) := by
  intro s l r e
  refine ⟨?_, ?_, ?_, ?_⟩
  · intro h hl
    exact convertIdent_split_eq h e hl
  · intro h1 h2 hl
    exact convertIdent_split_gt h1 h2 e hl
  · intro h1 h2 h3 hl
    exact convertIdent_split_lt h1 h2 h3 e hl
  · intro h1 h2 h3
    exact convertIdent_no_split h1 h2 h3

/-- C3 witness: a concrete hit of the > probe (with = absent) and a
concrete no-probe identifier, through the amended theorem. -/
theorem c3_witness :
    tryFromInterimExpr (.Identifier ⟨"age>10", none⟩) =
      .ok (.BinaryExpr (.Column "age") .Gt (.Literal (.DynFloat "10"))) ∧
    tryFromInterimExpr (.Identifier ⟨"abc", none⟩) = .ok (.Column "abc") :=
  ⟨(c3_embedded_operator_split "age>10" "age" "10" (.Column "age")).2.1
      (by decide) (by decide) (by decide),
    (c3_embedded_operator_split "abc" "" "" .Wildcard).2.2.2
      (by decide) (by decide) (by decide)⟩

/-- C5: the select-item translation of the embedded convert.rs succeeds
for a bare identifier and for an identifier aliased via AS, but errors
SqlSelectItemError on the wildcard select item, although the crate's own
test suite asserts that a SELECT * query succeeds; evaluated at the
failing wildcard input and at the two accepted shapes. -/
theorem c5_select_item_eval :
    tryFromInterimSelectItem (.Wildcard "*") = .error (.SqlSelectItemError "*") ∧
    tryFromInterimSelectItem (.UnnamedExpr (.Identifier ⟨"a", none⟩)) = .ok (.Column "a") ∧
    tryFromInterimSelectItem (.ExprWithAlias (.Identifier ⟨"a", none⟩) ⟨"b", none⟩) =
      .ok (.Alias (.Column "a") "b") := by
  refine ⟨?_, ?_, ?_⟩ <;> decide

/-- C6: operator translation maps each of the thirteen supported SQL
binary operators to its documented Operator variant and errors
SqlOperatorError on every operator outside that set; translation succeeds
exactly on the supported set. -/
theorem c6_operator_translation : ∀ op : SqlBinaryOperator,
    tryFromInterimOperator op =
      (match specOperatorMap op with
       | some o => .ok o
       | none => .error (.SqlOperatorError (sqlBinOpToString op))) ∧
    (tryFromInterimOperator op).isOk = (specOperatorMap op).isSome := by
  intro op
  exact ⟨by cases op <;> rfl, by cases op <;> rfl⟩

/-- C8: source extraction succeeds exactly when the FROM clause holds one
table reference with zero joins whose relation is a named table with a
first identifier part; on success the source is that identifier's bare
text, and every failure is a SqlTableError. -/
theorem c8_source_extraction : ∀ src : List TableWithJoins,
    ((∃ s, tryFromInterimSource src = .ok s) ↔
      ∃ ident rest, src = [⟨.Table (.Identifier ident :: rest), []⟩]) ∧
    (∀ (ident : Ident) (rest : List ObjectNamePart),
      src = [⟨.Table (.Identifier ident :: rest), []⟩] →
      tryFromInterimSource src = .ok ident.value) ∧
    (∀ e, tryFromInterimSource src = .error e → e.kind = .SqlTableError) := by
  intro src
  refine ⟨⟨?_, ?_⟩, ?_, ?_⟩
  · rintro ⟨s0, hs⟩
    match src with
    | [] => simp [tryFromInterimSource] at hs
    | t1 :: t2 :: ts => simp [tryFromInterimSource] at hs
    | [⟨rel, joins⟩] =>
      cases joins with
      | cons j js => simp [tryFromInterimSource] at hs
      | nil =>
        cases rel with
        | Derived d => simp [tryFromInterimSource] at hs
        | Table name =>
          match name with
          | [] => simp [tryFromInterimSource] at hs
          | .Identifier ident :: parts => exact ⟨ident, parts, rfl⟩
  · rintro ⟨ident, rest, rfl⟩
    exact ⟨ident.value, rfl⟩
  · intro ident rest h
    subst h
    rfl
  · intro e h
    exact kind_source src e h

/-- C8 witness: a one-table no-join source extracts its identifier text,
and the zero-table source fails with a SqlTableError kind. -/
theorem c8_witness :
    tryFromInterimSource [⟨.Table [.Identifier ⟨"https://x/t.csv", none⟩], []⟩] =
      .ok "https://x/t.csv" ∧
    (CustomError.SqlTableError "empty").kind = .SqlTableError :=
  ⟨(c8_source_extraction [⟨.Table [.Identifier ⟨"https://x/t.csv", none⟩], []⟩]).2.1
      ⟨"https://x/t.csv", none⟩ [] rfl,
    (c8_source_extraction []).2.2 (.SqlTableError "empty") (by decide)⟩

/-- C9: retrieve_data is not total: a source shorter than 4 bytes panics
on the dispatch slice instead of producing FetchResourceError, and a
source whose first four bytes are file but that is shorter than 7 bytes
panics on the scheme-stripping slice instead of producing FetchError. -/
theorem c9_fetcher_partiality : ∀ (net fs : List Char → Except String String)
    (s : List Char),
    (s.length < 4 → retrieve_data net fs s = .panicked) ∧
    (s.take 4 = "file".toList → s.length < 7 → retrieve_data net fs s = .panicked) := by
  intro net fs s
  constructor
  · intro h
    simp [retrieve_data, h]
  · intro hf h7
    have h4 : ¬ (s.length < 4) := by
      intro hlt
      have hlen := congrArg List.length hf
      simp [List.length_take] at hlen
      omega
    rw [retrieve_data, if_neg h4]
    simp only [hf]
    rw [if_neg (by decide)]
    simp only [if_true]
    rw [fileFetch, if_pos h7]

/-- C9 witness: the 3-byte source abc and the 5-byte source file: both
panic. -/
theorem c9_witness :
    retrieve_data (fun _ => .error "e") (fun _ => .error "e") "abc".toList = .panicked ∧
    retrieve_data (fun _ => .error "e") (fun _ => .error "e") "file:".toList = .panicked :=
  ⟨(c9_fetcher_partiality (fun _ => .error "e") (fun _ => .error "e") "abc".toList).1
      (by decide),
    (c9_fetcher_partiality (fun _ => .error "e") (fun _ => .error "e") "file:".toList).2
      (by decide) (by decide)⟩

/-- A slice takes at most len rows. -/
theorem polarsSlice_length_le {Row : Type} (t : List Row) (o : Int) (len : Nat) :
    (polarsSlice t o len).length ≤ len := by
  simp only [polarsSlice, List.length_take]
  omega

/-- C10: order-by translation always succeeds; entries whose expression
is not a bare identifier are silently omitted (the result names are
exactly the identifier entries in order); and the whole statement
translation never produces an error of kind SqlOrderError. -/
theorem c10_order_by_never_errors :
    (∀ o : OrderBy, ∃ res, tryFromInterimOrderBy o = .ok res) ∧
    (∀ (l : List OrderByExpr) (lst : List (String × OrderType)),
      tryFromInterimOrderBy ⟨.Expressions l⟩ = .ok lst →
      lst.map Prod.fst = l.filterMap fun ob =>
        match ob.expr with
        | .Identifier id => some id.value
        | _ => none) ∧
    (∀ (stmt : Statement) (e : CustomError),
      sqlTryFromStatement stmt = .error e → e.kind ≠ .SqlOrderError) := by
  refine ⟨?_, ?_, ?_⟩
  · intro o
    exact ⟨_, rfl⟩
  · intro l lst h
    have hl : lst = (l.foldr (fun ob acc => orderStep acc ob) []).reverse := by
      simp [tryFromInterimOrderBy] at h
      exact h.symm
    subst hl
    rw [List.map_reverse, orderFold_names, List.reverse_reverse]
  · intro stmt e h
    cases stmt with
    | Other d =>
      rw [sqlTryFromStatement] at h
      injection h with h1
      subst h1
      simp [CustomError.kind]
    | Query q =>
      rw [sqlTryFromStatement] at h
      obtain ⟨res, hres⟩ := convertOrderBy_ok q.order_by
      rw [hres, qbind_ok] at h
      cases hbody : q.body with
      | Other d =>
        simp only [hbody] at h
        injection h with h1
        subst h1
        simp [CustomError.kind]
      | Select sel =>
        simp only [hbody] at h
        cases hsrc : tryFromInterimSource sel.from_ with
        | error e1 =>
          rw [hsrc, qbind_error] at h
          injection h with h1
          subst h1
          rw [kind_source sel.from_ e1 hsrc]
          decide
        | ok src =>
          rw [hsrc, qbind_ok] at h
          cases hcond : convertCondition sel.selection with
          | error e2 =>
            rw [hcond, qbind_error] at h
            injection h with h1
            subst h1
            exact kind_condition sel.selection e2 hcond
          | ok c =>
            rw [hcond, qbind_ok] at h
            cases hproj : convertProjection sel.projection with
            | error e3 =>
              rw [hproj, qbind_error] at h
              injection h with h1
              subst h1
              rw [kind_projection sel.projection e3 hproj]
              decide
            | ok es =>
              rw [hproj, qbind_ok] at h
              simp at h

/-- C10 witness: a mixed order-by list with a wildcard entry keeps only
the identifier entry, and a rejected non-query statement errors with a
kind other than SqlOrderError. -/
theorem c10_witness :
    ([("a", OrderType.Desc)].map Prod.fst =
      ([⟨.Wildcard, ⟨none, none⟩⟩, ⟨.Identifier ⟨"a", none⟩, ⟨none, none⟩⟩] :
        List OrderByExpr).filterMap (fun ob =>
          match ob.expr with
          | .Identifier id => some id.value
          | _ => none)) ∧
    (CustomError.SqlStatementError "CREATE").kind ≠ .SqlOrderError :=
  ⟨c10_order_by_never_errors.2.1
      [⟨.Wildcard, ⟨none, none⟩⟩, ⟨.Identifier ⟨"a", none⟩, ⟨none, none⟩⟩]
      [("a", OrderType.Desc)] (by decide),
    c10_order_by_never_errors.2.2 (.Other "CREATE") (.SqlStatementError "CREATE") (by decide)⟩

/-- C4 counterexample: with a LIMIT value 1.5 (usize parse failure) and
an OFFSET value xyz (i64 parse failure), the translated statement has
limit = some usize::MAX and offset = some 0, not none as claimed. -/
theorem c4_counterexample :
    rustParseUsize "1.5" = none ∧
    rustParseI64 "xyz" = none ∧
    sqlTryFromStatement c4stmt = .ok
      { selection := [], condition := none, source := "t", order_by := [],
        offset := some 0, limit := some 18446744073709551615 } ∧
    ((some 18446744073709551615 : Option Nat) ≠ none ∧
      (some 0 : Option Int) ≠ none) := by
  refine ⟨by decide, by decide, by decide, by decide⟩

/-- C4 amended: a LIMIT or OFFSET clause whose value fails the integer
parse never fails the query, but it is not treated as absent: a present
clause always translates to some substituted number, with a failed
numeric limit parse yielding usize::MAX and a failed numeric offset
parse yielding 0. -/
theorem c4_limit_offset_fallback : ∀ (v : String) (b : Bool) (q : Query)
    (le : SqlExpr) (off : SqlOffset) (lb : List SqlExpr) (sql : Sql),
    (rustParseUsize v = none → interimLimitToUsize (.Value (.Number v b)) = usizeMax) ∧
    (rustParseI64 v = none → interimOffsetToI64 ⟨.Value (.Number v b)⟩ = 0) ∧
    (q.limit_clause = some (.LimitOffset (some le) (some off) lb) →
      sqlTryFromStatement (.Query q) = .ok sql →
      sql.limit = some (interimLimitToUsize le) ∧
      sql.offset = some (interimOffsetToI64 off)) := by
  intro v b q le off lb sql
  refine ⟨?_, ?_, ?_⟩
  · intro h
    simp [interimLimitToUsize, h]
  · intro h
    simp [interimOffsetToI64, h]
  · intro hclause h
    rw [sqlTryFromStatement] at h
    simp only [hclause] at h
    obtain ⟨res, hres⟩ := convertOrderBy_ok q.order_by
    rw [hres, qbind_ok] at h
    cases hbody : q.body with
    | Other d =>
      simp only [hbody] at h
      simp at h
    | Select sel =>
      simp only [hbody] at h
      cases hsrc : tryFromInterimSource sel.from_ with
      | error e1 =>
        rw [hsrc, qbind_error] at h
        simp at h
      | ok src =>
        rw [hsrc, qbind_ok] at h
        cases hcond : convertCondition sel.selection with
        | error e2 =>
          rw [hcond, qbind_error] at h
          simp at h
        | ok c =>
          rw [hcond, qbind_ok] at h
          cases hproj : convertProjection sel.projection with
          | error e3 =>
            rw [hproj, qbind_error] at h
            simp at h
          | ok es =>
            rw [hproj, qbind_ok] at h
            injection h with h1
            subst h1
            exact ⟨rfl, rfl⟩

/-- C4 witness: the fallback values at the concrete failing parses 1.5
and xyz, and the translated c4stmt carrying them as present values. -/
theorem c4_witness :
    interimLimitToUsize (.Value (.Number "1.5" false)) = usizeMax ∧
    interimOffsetToI64 ⟨.Value (.Number "xyz" false)⟩ = 0 ∧
    ((some 18446744073709551615 : Option Nat) =
        some (interimLimitToUsize (.Value (.Number "1.5" false))) ∧
      (some 0 : Option Int) = some (interimOffsetToI64 ⟨.Value (.Number "xyz" false)⟩)) := by
  have h := c4_limit_offset_fallback "1.5" false
    { limit_clause := some (.LimitOffset (some (.Value (.Number "1.5" false)))
        (some ⟨.Value (.Number "xyz" false)⟩) [])
      order_by := none
      body := .Select
        { from_ := [⟨.Table [.Identifier ⟨"t", none⟩], []⟩]
          selection := none
          projection := []
          group_by := [] } }
    (.Value (.Number "1.5" false)) ⟨.Value (.Number "xyz" false)⟩ []
    { selection := [], condition := none, source := "t", order_by := [],
      offset := some 0, limit := some 18446744073709551615 }
  exact ⟨h.1 (by decide), h.2.1 (by decide), h.2.2 rfl (by decide)⟩

/-- C1: on the simple-select branch (empty group_by), a present offset or
limit slices the filtered and sorted result starting at offset-or-0
taking limit-or-20 rows (so a present offset with absent limit caps the
output at 20 rows, for any engine whose projection preserves row count),
and with neither present no slice is applied: the full filtered and
sorted result flows to projection. -/
theorem c1_default_limit_policy : ∀ (Row : Type) (E : Engine Row) (s : SqlFull)
    (ds : List Row), s.group_by = [] →
    ((s.offset.isSome || s.limit.isSome) = true →
      runQuery E s ds =
        E.select s.selection
          (polarsSlice (sortPhase E s ds) (s.offset.getD 0) (s.limit.getD 20))) ∧
    (s.offset = none → s.limit = none →
      runQuery E s ds = E.select s.selection (sortPhase E s ds)) ∧
    ((∀ sel t, (E.select sel t).length = t.length) → s.offset.isSome = true →
      s.limit = none → (runQuery E s ds).length ≤ 20) := by
  intro Row E s ds hg
  have hbranch : ¬ (s.group_by.length > 0) := by simp [hg]
  refine ⟨?_, ?_, ?_⟩
  · intro hp
    rw [runQuery, if_neg hbranch]
    simp only [hp, if_true]
  · intro ho hl
    rw [runQuery, if_neg hbranch]
    simp only [ho, hl, Option.isSome_none, Bool.or_self, Bool.false_eq_true, if_false]
  · intro hsel ho hl
    have heq : runQuery E s ds =
        E.select s.selection
          (polarsSlice (sortPhase E s ds) (s.offset.getD 0) 20) := by
      rw [runQuery, if_neg hbranch]
      simp only [ho, hl, Bool.true_or, if_true, Option.getD_none]
    rw [heq, hsel]
    exact polarsSlice_length_le _ _ _

/-- C1 witness: with offset 2 and no limit the pipeline slices with
length 20 and yields at most 20 rows from a 30-row table; with neither
offset nor limit it projects the sorted result unsliced. -/
theorem c1_witness :
    runQuery idEngine
      { selection := [], condition := none, source := "t", order_by := [],
        offset := some 2, limit := none, group_by := [], aggregation := [] }
      (List.range 30) =
      idEngine.select []
        (polarsSlice (sortPhase idEngine
          { selection := [], condition := none, source := "t", order_by := [],
            offset := some 2, limit := none, group_by := [], aggregation := [] }
          (List.range 30)) 2 20) ∧
    runQuery idEngine
      { selection := [], condition := none, source := "t", order_by := [],
        offset := none, limit := none, group_by := [], aggregation := [] }
      (List.range 30) =
      idEngine.select []
        (sortPhase idEngine
          { selection := [], condition := none, source := "t", order_by := [],
            offset := none, limit := none, group_by := [], aggregation := [] }
          (List.range 30)) ∧
    (runQuery idEngine
      { selection := [], condition := none, source := "t", order_by := [],
        offset := some 2, limit := none, group_by := [], aggregation := [] }
      (List.range 30)).length ≤ 20 := by
  have h1 := c1_default_limit_policy Nat idEngine
    { selection := [], condition := none, source := "t", order_by := [],
      offset := some 2, limit := none, group_by := [], aggregation := [] }
    (List.range 30) rfl
  have h2 := c1_default_limit_policy Nat idEngine
    { selection := [], condition := none, source := "t", order_by := [],
      offset := none, limit := none, group_by := [], aggregation := [] }
    (List.range 30) rfl
  exact ⟨h1.1 rfl, h2.2.1 rfl rfl, h1.2.2 (fun _ _ => rfl) rfl rfl⟩

/-- C7: a translated statement with nonempty group_by takes the
aggregation branch, which groups the filtered table by the group-by keys
as column expressions, applies the aggregation expressions, projects the
selection, and is invariant under order_by, offset and limit; with empty
group_by the simple-select branch of filter, sort, optional slice and
projection is taken. -/
theorem c7_group_by_branching : ∀ (Row : Type) (E : Engine Row) (s : SqlFull)
    (ds : List Row) (ob : List (String × OrderType)) (off : Option Int)
    (lim : Option Nat),
    (s.group_by ≠ [] →
      runQuery E s ds =
        E.select s.selection
          (E.groupByAgg (s.group_by.map Expr.Column) s.aggregation
            (filterPhase E s ds)) ∧
      runQuery E { s with order_by := ob, offset := off, limit := lim } ds =
        runQuery E s ds) ∧
    (s.group_by = [] →
      runQuery E s ds =
        E.select s.selection
          (if s.offset.isSome || s.limit.isSome then
            polarsSlice (sortPhase E s ds) (s.offset.getD 0) (s.limit.getD 20)
          else sortPhase E s ds)) := by
  intro Row E s ds ob off lim
  constructor
  · intro hg
    have hpos : s.group_by.length > 0 := by
      cases hgb : s.group_by with
      | nil => exact absurd hgb hg
      | cons a as => simp [hgb]
    constructor
    · rw [runQuery, if_pos hpos]
    · have hpos2 :
          ({ s with order_by := ob, offset := off, limit := lim } : SqlFull).group_by.length
            > 0 := hpos
      rw [runQuery, if_pos hpos2, runQuery, if_pos hpos]
      rfl
  · intro hg
    have hbranch : ¬ (s.group_by.length > 0) := by simp [hg]
    rw [runQuery, if_neg hbranch]

/-- C7 witness: a grouped query over three rows takes the aggregation
branch, ignores order_by, offset and limit, and an ungrouped one takes
the simple-select branch. -/
theorem c7_witness :
    runQuery idEngine
      { selection := [], condition := none, source := "t", order_by := [],
        offset := none, limit := none, group_by := ["k"], aggregation := [] }
      [1, 2, 3] =
      idEngine.select []
        (idEngine.groupByAgg (["k"].map Expr.Column) []
          (filterPhase idEngine
            { selection := [], condition := none, source := "t", order_by := [],
              offset := none, limit := none, group_by := ["k"], aggregation := [] }
            [1, 2, 3])) ∧
    runQuery idEngine
      { selection := [], condition := none, source := "t",
        order_by := [("a", OrderType.Asc)], offset := some 5, limit := some 1,
        group_by := ["k"], aggregation := [] } [1, 2, 3] =
      runQuery idEngine
        { selection := [], condition := none, source := "t", order_by := [],
          offset := none, limit := none, group_by := ["k"], aggregation := [] }
        [1, 2, 3] ∧
    runQuery idEngine
      { selection := [], condition := none, source := "t", order_by := [],
        offset := none, limit := none, group_by := [], aggregation := [] }
      [1, 2, 3] =
      idEngine.select []
        (sortPhase idEngine
          { selection := [], condition := none, source := "t", order_by := [],
            offset := none, limit := none, group_by := [], aggregation := [] }
          [1, 2, 3]) := by
  have h1 := c7_group_by_branching Nat idEngine
    { selection := [], condition := none, source := "t", order_by := [],
      offset := none, limit := none, group_by := ["k"], aggregation := [] }
    [1, 2, 3] [("a", OrderType.Asc)] (some 5) (some 1)
  have h2 := c7_group_by_branching Nat idEngine
    { selection := [], condition := none, source := "t", order_by := [],
      offset := none, limit := none, group_by := [], aggregation := [] }
    [1, 2, 3] [] none none
  exact ⟨(h1.1 (by decide)).1, (h1.1 (by decide)).2, h2.2 rfl⟩

end QueryRs
